import Mathlib

/-!
Verification of the interview voice-bot backend (two FastAPI variants:
the dual-store `app.py` controller and the single-store `app (7).py`
controller).  The data model and every route handler the claims touch are
embedded as pure Lean functions over an explicit state record; external
collaborators (Whisper decoding, ffmpeg transcoding, blob storage, the two
record stores) appear as oracle arguments or as components of the state.
-/

namespace ChatBot

/-- Python list indexing semantics for `l[i]` on an `int` index: negative
indices count from the end; `none` models an `IndexError`. -/
def pyGet (l : List String) (i : Int) : Option String :=
  if 0 ≤ i then l.get? i.toNat
  else if -(l.length : Int) ≤ i then l.get? (l.length - (-i).toNat)
  else none

/-- The fixed question list `QUESTIONS` from `app.py` (identical in both
variants). -/
def QUESTIONS : List String :=
  [ "How many years of experience do you have?",
    "What is your current CTC?",
    "What is your expected CTC?",
    "Which is your current location?",
    "Are you open to relocation?",
    "What is your notice period?" ]

/-- A character bson's ObjectId constructor accepts (hex digit). -/
def isHexChar (c : Char) : Bool :=
  c.isDigit || (('a' ≤ c && c ≤ 'f') || ('A' ≤ c && c ≤ 'F'))

/-- `ObjectId(s)` succeeds exactly on 24-character hex strings; elsewhere the
constructor raises, which the embedding reports as a failure. -/
def isObjectId (s : String) : Bool :=
  s.length = 24 && s.data.all isHexChar

/-- Drop the leading whitespace characters. -/
def dropLeadingWS : List Char → List Char
  | [] => []
  | c :: cs => if c.isWhitespace then dropLeadingWS cs else c :: cs

/-- Python `str.strip()`: remove leading and trailing whitespace. -/
def pyStrip (s : String) : String :=
  String.mk (dropLeadingWS (dropLeadingWS s.data.reverse).reverse)

/-- A row of the Supabase `sessions` table: `{candidate_id, q_index}`. -/
structure Session where
  candidate_id : String
  q_index : Nat
deriving DecidableEq

/-- A row of the Supabase `interviews` table, as inserted by
`submit_answer` in `app.py`. -/
structure AnswerRecord where
  candidate_id : String
  question : String
  answer_text : String
  status : String
  answer_audio_url : String
deriving DecidableEq

/-- A document of the Mongo `candidates` registry (externally owned). -/
structure MongoCandidate where
  id : String
  name : String
  email : String
deriving DecidableEq

/-- A document of the Mongo `interviews` collection: `qa = none` models the
absence of the `qa` field (the `start_interview` placeholder document). -/
structure MongoDoc where
  candidate_id : String
  qa : Option (List (List String))
deriving DecidableEq

/-- A row of the Supabase `candidates` table. -/
structure SupaCandidate where
  candidate_id : String
  name : String
  email : String
deriving DecidableEq

/-- The full observable state of the `app.py` controller: the two structured
stores, the blob bucket key set, the on-disk TTS cache (with a counter of
synthesis calls), and the per-request temporary files currently on disk.
Lists record insertion order; `data[0]` of a Supabase select is the head of
the corresponding filter. -/
structure AppState where
  mongoCandidates : List MongoCandidate
  supaCandidates : List SupaCandidate
  sessions : List Session
  interviews : List AnswerRecord
  mongoInterviews : List MongoDoc
  blobKeys : List String
  ttsCache : List String
  synthCount : Nat
  tempFiles : List String
deriving DecidableEq

/-- Error outcomes of a request: `notFound` is the explicit
`HTTPException(404, ...)`; the others are uncaught Python exceptions
(surfaced as 500-class failures). -/
inductive Err where
  | notFound (detail : String)
  | transcodeFailed
  | indexError
  | invalidObjectId
deriving DecidableEq

/-- HTTP status class of an error. -/
def Err.code : Err → Nat
  | .notFound _ => 404
  | _ => 500

/-- `data[0]` of `select * from sessions where candidate_id = cid`. -/
def findSession (σ : AppState) (cid : String) : Option Session :=
  σ.sessions.find? (fun s => s.candidate_id == cid)

/-- Rendering of an optional string in a Python f-string (`None` prints as
`"None"`). -/
def optStr : Option String → String
  | some s => s
  | none => "None"

/-- Public URL of a blob key (deterministic in the key). -/
def publicUrl (key : String) : String :=
  "https://supabase.storage/interview-audios/" ++ key

/-- Upload with `upsert`: the key set gains the key if absent. -/
def insertKey (k : String) (l : List String) : List String :=
  if k ∈ l then l else l ++ [k]

/-- View of an `Except` value as a sum, for deciding equality. -/
def exceptToSum {ε α : Type} : Except ε α → ε ⊕ α
  | .error e => Sum.inl e
  | .ok a => Sum.inr a

instance {ε α : Type} [DecidableEq ε] [DecidableEq α] :
    DecidableEq (Except ε α) := fun a b =>
  decidable_of_iff (exceptToSum a = exceptToSum b)
    (by cases a <;> cases b <;> simp [exceptToSum])

/-- Request body of `POST /start_interview`. -/
structure StartReq where
  name : Option String
  email : Option String
deriving DecidableEq

/-- Response of `POST /start_interview`. -/
structure StartResp where
  candidate_id : String
  next_question_url : String
deriving DecidableEq

/-- `start_interview` from `app.py`: look the candidate up by email in the
Mongo registry (404 if absent — the strict variant), sync the Supabase
`candidates` row, insert a fresh session at `q_index = 0`, and insert the
placeholder Mongo interview document (which has no `qa` field). -/
def startInterview (req : StartReq) (σ : AppState) :
    AppState × Except Err StartResp :=
  match σ.mongoCandidates.find? (fun c => some c.email == req.email) with
  | none =>
      (σ, .error (.notFound ("Candidate with email " ++ optStr req.email ++
        " not found in MongoDB register database")))
  | some cand =>
      let cid := cand.id
      let σ1 :=
        if σ.supaCandidates.any (fun c => c.candidate_id == cid) then σ
        else { σ with supaCandidates :=
                 σ.supaCandidates ++ [⟨cid, cand.name, cand.email⟩] }
      let σ2 := { σ1 with sessions := σ1.sessions ++ [⟨cid, 0⟩] }
      if isObjectId cid then
        let σ3 := { σ2 with mongoInterviews :=
                      σ2.mongoInterviews ++ [⟨cid, none⟩] }
        (σ3, .ok ⟨cid, "/question/" ++ cid⟩)
      else
        (σ2, .error .invalidObjectId)

/-- Response of `GET /question/{candidate_id}`. -/
inductive QuestionResp where
  | done
  | ask (question_index : Nat) (question : String) (audio_url : String)
deriving DecidableEq

/-- The on-disk TTS cache filename `q_{candidate_id}_{idx}.mp3`. -/
def ttsName (cid : String) (idx : Nat) : String :=
  "q_" ++ cid ++ "_" ++ toString idx ++ ".mp3"

/-- The bucket key `{candidate_id}/bot_q_{idx}.mp3` of a question audio. -/
def botKey (cid : String) (idx : Nat) : String :=
  cid ++ "/bot_q_" ++ toString idx ++ ".mp3"

/-- `get_question` from `app.py`: read `q_index` from the first session row;
report completion when it is past the question list; otherwise synthesize the
question audio once (cached on disk by candidate and index), upsert it to the
bucket, and return the question with its public URL. -/
def getQuestion (cid : String) (σ : AppState) :
    AppState × Except Err QuestionResp :=
  match findSession σ cid with
  | none => (σ, .error (.notFound "Session not found"))
  | some s =>
      if h : s.q_index < QUESTIONS.length then
        let question := QUESTIONS.get ⟨s.q_index, h⟩
        let σ1 :=
          if ttsName cid s.q_index ∈ σ.ttsCache then σ
          else { σ with ttsCache := σ.ttsCache ++ [ttsName cid s.q_index],
                        synthCount := σ.synthCount + 1 }
        let σ2 := { σ1 with blobKeys := insertKey (botKey cid s.q_index) σ1.blobKeys }
        (σ2, .ok (.ask s.q_index question (publicUrl (botKey cid s.q_index))))
      else
        (σ, .ok .done)

/-- Which `pad_or_trim` call form a Whisper decode attempt used: the default
window on the first try, the explicit 30-second window on the retry. -/
inductive Pad where
  | firstTry
  | retryLonger
deriving DecidableEq

/-- The transcription block of `submit_answer` in `app.py` (the body of the
`try`): decode once; if the stripped text is empty, retry exactly once with
the longer padding window; classify as `ok` (non-empty) or `error` (empty or
engine exception, both replaced by a placeholder text).  `r1` is the oracle
outcome of the first decode (`none` = the engine raised), `r2` of the retry.
Returns the transcript text, the status, and the list of decode attempts. -/
def transcribeStep (r1 r2 : Option String) : String × String × List Pad :=
  match r1 with
  | none => ("(Transcription failed)", "error", [Pad.firstTry])
  | some t1 =>
      if pyStrip t1 = "" then
        match r2 with
        | none => ("(Transcription failed)", "error", [Pad.firstTry, Pad.retryLonger])
        | some t2 =>
            if pyStrip t2 = "" then
              ("(Could not detect speech)", "error", [Pad.firstTry, Pad.retryLonger])
            else (pyStrip t2, "ok", [Pad.firstTry, Pad.retryLonger])
      else (pyStrip t1, "ok", [Pad.firstTry])

/-- Response of `POST /submit_answer/{candidate_id}/{question_index}`. -/
structure SubmitResp where
  answer_text : String
  status : String
  next_question_url : String
deriving DecidableEq

/-- Arguments of one `submit_answer` request, bundling the caller-supplied
inputs with the oracle outcomes of the external calls: `transcodeOk` is
whether ffmpeg succeeds, `r1`/`r2` the two possible Whisper decode results,
`tmpIn`/`tmpWav` the names of the two temporary files, `uuidHex` the fresh
upload key component, `ext` the uploaded file's extension. -/
structure SubmitArgs where
  candidate_id : String
  question_index : Int
  transcodeOk : Bool
  r1 : Option String
  r2 : Option String
  tmpIn : String
  tmpWav : String
  uuidHex : String
  ext : String
deriving DecidableEq

/-- Mongo `update_one(filter, push, upsert=True)`: push the entry onto the
`qa` list of the first matching document, creating the field or the document
as needed. -/
def pushQA (cid : String) (entry : List String) :
    List MongoDoc → List MongoDoc
  | [] => [⟨cid, some [entry]⟩]
  | d :: ds =>
      if d.candidate_id == cid then
        { d with qa := some (d.qa.getD [] ++ [entry]) } :: ds
      else d :: pushQA cid entry ds

/-- Sessions table after `update sessions set q_index = v where
candidate_id = cid`. -/
def bumpSessions (cid : String) (v : Nat) (l : List Session) : List Session :=
  l.map (fun t => if t.candidate_id == cid then ⟨t.candidate_id, v⟩ else t)

/-- `submit_answer` from `app.py`, step for step: session lookup (404 when
absent), write the uploaded temp file, transcode (an ffmpeg failure
propagates, leaving the uploaded temp file on disk), transcribe with one
empty-transcript retry, upload the original audio under a fresh key, delete
both temp files, insert the answer row (indexing `QUESTIONS` with the
caller-supplied index — an out-of-range index raises here, after the upload),
push the Q/A pair into Mongo, and advance `q_index` only when `status = ok`
(to the snapshot value plus one). -/
def submitAnswer (a : SubmitArgs) (σ : AppState) :
    AppState × Except Err SubmitResp :=
  match findSession σ a.candidate_id with
  | none => (σ, .error (.notFound "Session not found"))
  | some s =>
      let σ1 := { σ with tempFiles := σ.tempFiles ++ [a.tmpIn] }
      if a.transcodeOk then
        let σ2 := { σ1 with tempFiles := σ1.tempFiles ++ [a.tmpWav] }
        let outcome := transcribeStep a.r1 a.r2
        let text_answer := outcome.1
        let status := outcome.2.1
        let key := a.candidate_id ++ "/" ++ a.uuidHex ++ a.ext
        let σ3 := { σ2 with blobKeys := σ2.blobKeys ++ [key] }
        let σ4 := { σ3 with tempFiles :=
            σ3.tempFiles.filter (fun f => !(f == a.tmpIn) && !(f == a.tmpWav)) }
        match pyGet QUESTIONS a.question_index with
        | none => (σ4, .error .indexError)
        | some q =>
            let σ5 := { σ4 with interviews := σ4.interviews ++
                [⟨a.candidate_id, q, text_answer, status, publicUrl key⟩] }
            if isObjectId a.candidate_id then
              let entry := ["Q: " ++ q, "A: " ++ text_answer]
              let newDocs := pushQA a.candidate_id entry σ5.mongoInterviews
              let σ6 := { σ5 with mongoInterviews := newDocs }
              let σ7 :=
                if status = "ok" then
                  { σ6 with sessions :=
                      bumpSessions a.candidate_id (s.q_index + 1) σ6.sessions }
                else σ6
              (σ7, .ok ⟨text_answer, status, "/question/" ++ a.candidate_id⟩)
            else (σ5, .error .invalidObjectId)
      else
        (σ1, .error .transcodeFailed)

/-- Response of `GET /finish_interview/{candidate_id}`. -/
structure FinishResp where
  candidate_id : String
  answers : List AnswerRecord
deriving DecidableEq

/-- `finish_interview` from `app.py`: select the candidate's answer rows,
delete the candidate's session rows, return the answer rows. -/
def finishInterview (cid : String) (σ : AppState) : AppState × FinishResp :=
  let clean := pyStrip cid
  let answers := σ.interviews.filter (fun r => r.candidate_id == clean)
  ({ σ with sessions :=
       σ.sessions.filter (fun s => !(s.candidate_id == clean)) },
   ⟨clean, answers⟩)

/-- Response of `GET /get_answers/{candidate_id}` in `app.py`. -/
structure AnswersResp where
  candidate_id : String
  qa : List (List String)
deriving DecidableEq

/-- `get_answers` from `app.py`: return the Mongo document's `qa` list when
the id parses as an ObjectId and the first matching document carries the
field; otherwise fall back to mapping the candidate's Supabase rows, in
stored order, to `[Q, A]` pairs. -/
def appGetAnswers (cid : String) (σ : AppState) : AppState × AnswersResp :=
  let clean := pyStrip cid
  let doc :=
    if isObjectId clean then
      σ.mongoInterviews.find? (fun d => d.candidate_id == clean)
    else none
  let qa :=
    match doc.bind (fun d => d.qa) with
    | some qa => qa
    | none =>
        let rows := σ.interviews.filter (fun r => r.candidate_id == clean)
        rows.map (fun r => ["Q: " ++ r.question, "A: " ++ r.answer_text])
  (σ, ⟨clean, qa⟩)

/-- One request against the running `app.py` controller (start_interview is
treated separately, since a fresh session is the claims' starting point). -/
inductive Op where
  | submit (a : SubmitArgs)
  | question (cid : String)
  | answers (cid : String)
  | finish (cid : String)
deriving DecidableEq

/-- State effect of one request. -/
def step (σ : AppState) : Op → AppState
  | .submit a => (submitAnswer a σ).1
  | .question cid => (getQuestion cid σ).1
  | .answers cid => (appGetAnswers cid σ).1
  | .finish cid => (finishInterview cid σ).1

/-- State after a sequence of requests. -/
def run (σ : AppState) : List Op → AppState
  | [] => σ
  | op :: ops => run (step σ op) ops

/-- Number of `status = ok` answer records of a candidate. -/
def countOk (recs : List AnswerRecord) (cid : String) : Nat :=
  (recs.filter (fun r => r.candidate_id == cid && r.status == "ok")).length

/-- The session invariant: every session row belongs to a candidate id that
parses as an ObjectId (true of every session the code creates), and its
`q_index` equals the candidate's count of `ok` answer records. -/
def Inv (σ : AppState) : Prop :=
  (∀ s ∈ σ.sessions, isObjectId s.candidate_id = true) ∧
  (∀ s ∈ σ.sessions, s.q_index = countOk σ.interviews s.candidate_id)

/-- A request that is a `submit_answer` for `cid` whose external calls all
succeed with a non-empty transcript (an `ok`-status submission). -/
def isOkSubmit (cid : String) : Op → Bool
  | .submit a =>
      a.candidate_id == cid && a.transcodeOk &&
      (pyGet QUESTIONS a.question_index).isSome &&
      (transcribeStep a.r1 a.r2).2.1 == "ok"
  | _ => false

/-- Stable insertion of an element into a list sorted by an integer key. -/
def insertByKey {α : Type} (key : α → Int) (r : α) : List α → List α
  | [] => [r]
  | x :: xs =>
      if key x ≤ key r then x :: insertByKey key r xs else r :: x :: xs

/-- Stable insertion sort by an integer key (the model of a Supabase
`order(column)` clause). -/
def sortByKey {α : Type} (key : α → Int) : List α → List α
  | [] => []
  | x :: xs => insertByKey key x (sortByKey key xs)

/-- Concatenation of the blocks an element-wise formatter produces. -/
def flatQA {α : Type} (f : α → List String) : List α → List String
  | [] => []
  | x :: xs => f x ++ flatQA f xs

/-- Zero-based index of a question text in the fixed question list (the
spec's "Answer Records reference ... Question List by index"); texts not in
the list sort last. -/
def questionIdx (q : String) : Int :=
  match QUESTIONS.findIdx? (fun x => x == q) with
  | some n => (n : Int)
  | none => (QUESTIONS.length : Int)

/-- The output the spec prescribes for the transcript projection, following
its words: order the answer records by question index and interleave each
question text and its answer text into a flat alternating sequence. -/
def specOrderedFlatTranscript (recs : List AnswerRecord) : List String :=
  flatQA (fun r => ["Q: " ++ r.question, "A: " ++ r.answer_text])
    (sortByKey (fun r => questionIdx r.question) recs)

namespace Part000

/-- A row of the single `responses` table of the single-store variant
(`app (7).py`); only the columns its `get_answers` selects and orders by are
kept, with `""` standing for a SQL `null` text (both are falsy in the
Python formatting loop and neither is ever formatted). -/
structure ResponseRow where
  candidate_id : Int
  q_index : Int
  question : String
  answer_text : String
deriving DecidableEq

/-- Observable state of the single-store controller. -/
structure P0State where
  responses : List ResponseRow
  blobKeys : List String
  tempFiles : List String
deriving DecidableEq

/-- The transcription block of `submit_answer` in the single-store variant:
a single decode, no retry; an empty stripped transcript is replaced by the
placeholder text and an engine exception by a failure text.  Returns the
text and the list of decode attempts. -/
def p0Transcribe (r1 : Option String) : String × List Pad :=
  match r1 with
  | none => ("(transcription failed)", [Pad.firstTry])
  | some t =>
      (if pyStrip t = "" then "(Could not detect speech)" else pyStrip t,
       [Pad.firstTry])

/-- Response of the single-store `submit_answer`. -/
structure P0SubmitResp where
  answer_text : String
  status : String
  answer_audio_url : String
  next_question_url : String
deriving DecidableEq

/-- Arguments of one single-store `submit_answer` request. -/
structure P0SubmitArgs where
  candidate_id : Int
  question_index : Int
  transcodeOk : Bool
  r1 : Option String
  tmpIn : String
  tmpWav : String
  ext : String
deriving DecidableEq

/-- `submit_answer` from the single-store variant: save and transcode the
upload, transcribe once (no retry), upsert the audio under a key derived
from candidate and question index, delete the temp files, insert the
response row (indexing `QUESTIONS` with the caller-supplied index), and
reply — always with `status = "ok"`, whatever the transcription outcome. -/
def p0SubmitAnswer (a : P0SubmitArgs) (σ : P0State) :
    P0State × Except Err P0SubmitResp :=
  let σ1 := { σ with tempFiles := σ.tempFiles ++ [a.tmpIn] }
  if a.transcodeOk then
    let σ2 := { σ1 with tempFiles := σ1.tempFiles ++ [a.tmpWav] }
    let text_answer := (p0Transcribe a.r1).1
    let key := toString a.candidate_id ++ "/answer_q" ++
      toString a.question_index ++ a.ext
    let σ3 := { σ2 with blobKeys := insertKey key σ2.blobKeys }
    let σ4 := { σ3 with tempFiles :=
        σ3.tempFiles.filter (fun f => !(f == a.tmpIn) && !(f == a.tmpWav)) }
    match pyGet QUESTIONS a.question_index with
    | none => (σ4, .error .indexError)
    | some q =>
        let σ5 := { σ4 with responses := σ4.responses ++
            [⟨a.candidate_id, a.question_index, q, text_answer⟩] }
        (σ5, .ok ⟨text_answer, "ok", publicUrl key,
          "/question/" ++ toString a.candidate_id⟩)
  else
    (σ1, .error .transcodeFailed)

/-- Response of the single-store `get_answers`. -/
structure P0AnswersResp where
  candidate_id : Int
  answers : List ResponseRow
  transcript : List String
deriving DecidableEq

/-- `get_answers` from the single-store variant: select the candidate's rows
ordered by `q_index` and build the transcript by appending, per row, the
`Q:` line when the question is non-null and the `A:` line when the answer is
non-null. -/
def p0GetAnswers (cid : Int) (σ : P0State) : P0State × P0AnswersResp :=
  let rows := sortByKey (fun r => r.q_index)
    (σ.responses.filter (fun r => r.candidate_id == cid))
  (σ,
   if rows.isEmpty then ⟨cid, [], []⟩
   else
     let transcript := rows.foldl (fun acc r =>
       acc ++ (if r.question == "" then [] else ["Q: " ++ r.question])
           ++ (if r.answer_text == "" then [] else ["A: " ++ r.answer_text])) []
     ⟨cid, rows, transcript⟩)

/-- A row holding an actual recorded answer (both text columns non-null);
the `start_interview` placeholder row has both columns null. -/
def fullRow (r : ResponseRow) : Bool :=
  !(r.question == "") && !(r.answer_text == "")

end Part000

/-- Description of the state a completed `submit_answer` run reaches before
the conditional `q_index` advance: temp files written and removed, audio
uploaded under the fresh key, the answer row appended, the Q/A pair pushed
into Mongo.  `q` is the question text the caller-supplied index selected. -/
def submitMidState (a : SubmitArgs) (q : String) (σ : AppState) : AppState :=
  { σ with
    tempFiles := ((σ.tempFiles ++ [a.tmpIn]) ++ [a.tmpWav]).filter
      (fun f => !(f == a.tmpIn) && !(f == a.tmpWav)),
    blobKeys := σ.blobKeys ++ [a.candidate_id ++ "/" ++ a.uuidHex ++ a.ext],
    interviews := σ.interviews ++
      [⟨a.candidate_id, q, (transcribeStep a.r1 a.r2).1,
        (transcribeStep a.r1 a.r2).2.1,
        publicUrl (a.candidate_id ++ "/" ++ a.uuidHex ++ a.ext)⟩],
    mongoInterviews := pushQA a.candidate_id
      ["Q: " ++ q, "A: " ++ (transcribeStep a.r1 a.r2).1] σ.mongoInterviews }

instance (σ : AppState) : Decidable (Inv σ) := by
  unfold Inv
  exact instDecidableAnd

/-- A syntactically valid Mongo ObjectId, used by the concrete examples. -/
def cidH : String := "0123456789abcdef01234567"

/-- The empty backing state (both stores, bucket and disk empty). -/
def emptyState : AppState := ⟨[], [], [], [], [], [], [], 0, []⟩

/-- A state whose Mongo registry holds one candidate. -/
def regState : AppState :=
  { emptyState with mongoCandidates := [⟨cidH, "Alice", "alice@example.com"⟩] }

/-- The state right after `start_interview` for the registered candidate: a
fresh session at `q_index = 0`. -/
def startedState : AppState :=
  (startInterview ⟨some "Alice", some "alice@example.com"⟩ regState).1

/-- A `submit_answer` request for question `i` whose external calls all
succeed with a non-empty transcript. -/
def okArgs (i : Nat) : SubmitArgs :=
  ⟨cidH, (i : Int), true, some "about five years", none,
   "in" ++ toString i, "wav" ++ toString i, "uid" ++ toString i, ".webm"⟩

/-- Six consecutive successful submissions, one per question. -/
def sixOkOps : List Op := (List.range 6).map (fun i => Op.submit (okArgs i))

/-- The state after the fresh start followed by the six `ok` submissions. -/
def finishedState : AppState := run startedState sixOkOps

/-- A dual-store state whose two answer records were submitted out of
question order (question 1 first, then question 0), as the unchecked
caller-supplied index permits. -/
def outOfOrderState : AppState :=
  { emptyState with interviews :=
      [⟨"c", "What is your current CTC?", "five lakh", "ok", "u1"⟩,
       ⟨"c", "How many years of experience do you have?", "three years", "ok", "u0"⟩] }

/-- A single-store state for candidate 7: the `start_interview` placeholder
row (`q_index = -1`, null texts) plus two answers submitted out of question
order. -/
def p0State : Part000.P0State :=
  ⟨[⟨7, -1, "", ""⟩,
    ⟨7, 1, "What is your current CTC?", "five lakh"⟩,
    ⟨7, 0, "How many years of experience do you have?", "three years"⟩],
   [], []⟩

theorem pyGet_eq_none_iff (l : List String) (i : Int) :
    pyGet l i = none ↔ ((l.length : Int) ≤ i ∨ i < -(l.length : Int)) := by
  unfold pyGet
  split
  case isTrue h0 =>
    rw [List.get?_eq_none]
    omega
  case isFalse h0 =>
    split
    case isTrue h1 =>
      rw [List.get?_eq_none]
      omega
    case isFalse h1 =>
      simp only [true_iff]
      omega

theorem pyGet_questions_none_iff (i : Int) :
    pyGet QUESTIONS i = none ↔ 6 ≤ i ∨ i < -6 := by
  have h6 : QUESTIONS.length = 6 := rfl
  rw [pyGet_eq_none_iff, h6]
  norm_num

theorem transcribeStep_status (r1 r2 : Option String) :
    (transcribeStep r1 r2).2.1 = "ok" ∨ (transcribeStep r1 r2).2.1 = "error" := by
  rcases r1 with _ | t1
  · right; rfl
  · simp only [transcribeStep]
    split_ifs with h1
    · rcases r2 with _ | t2
      · right; rfl
      · simp only []
        split_ifs with h2
        · right; rfl
        · left; rfl
    · left; rfl

theorem transcribeStep_attempts_le (r1 r2 : Option String) :
    (transcribeStep r1 r2).2.2.length ≤ 2 := by
  rcases r1 with _ | t1
  · simp [transcribeStep]
  · simp only [transcribeStep]
    split_ifs with h1
    · rcases r2 with _ | t2
      · simp
      · simp only []
        split_ifs with h2 <;> simp
    · simp

theorem transcribeStep_retry_iff (r1 r2 : Option String) :
    (transcribeStep r1 r2).2.2 = [Pad.firstTry, Pad.retryLonger] ↔
      ∃ t, r1 = some t ∧ pyStrip t = "" := by
  rcases r1 with _ | t1
  · simp [transcribeStep]
  · simp only [transcribeStep]
    split_ifs with h1
    · have hl : (match r2 with
          | none => ("(Transcription failed)", "error", [Pad.firstTry, Pad.retryLonger])
          | some t2 =>
              if pyStrip t2 = "" then
                ("(Could not detect speech)", "error", [Pad.firstTry, Pad.retryLonger])
              else (pyStrip t2, "ok", [Pad.firstTry, Pad.retryLonger])).2.2 =
          [Pad.firstTry, Pad.retryLonger] := by
        rcases r2 with _ | t2
        · rfl
        · simp only []
          split_ifs with h2 <;> rfl
      rw [hl]
      simp [h1]
    · simp [h1]

theorem transcribeStep_error_iff (r1 r2 : Option String) :
    (transcribeStep r1 r2).2.1 = "error" ↔
      (r1 = none ∨ ∃ t, r1 = some t ∧ pyStrip t = "" ∧
        (r2 = none ∨ ∃ u, r2 = some u ∧ pyStrip u = "")) := by
  rcases r1 with _ | t1
  · simp [transcribeStep]
  · simp only [transcribeStep]
    split_ifs with h1
    · rcases r2 with _ | t2
      · simp [h1]
      · simp only []
        split_ifs with h2
        · simp [h1, h2]
        · simp [h1, h2]
    · simp [h1]

theorem mem_insertKey_self (k : String) (l : List String) : k ∈ insertKey k l := by
  unfold insertKey
  split_ifs with h
  · exact h
  · exact List.mem_append.mpr (Or.inr (List.mem_singleton.mpr rfl))

theorem insertKey_of_mem {k : String} {l : List String} (h : k ∈ l) :
    insertKey k l = l := by
  unfold insertKey
  exact if_pos h

theorem insertByKey_perm {α : Type} (key : α → Int) (r : α) (l : List α) :
    (insertByKey key r l).Perm (r :: l) := by
  induction l with
  | nil => simp [insertByKey]
  | cons x xs ih =>
      unfold insertByKey
      split_ifs with h
      · exact ((ih.cons x).trans (List.Perm.swap r x xs))
      · exact List.Perm.refl _

theorem sortByKey_perm {α : Type} (key : α → Int) (l : List α) :
    (sortByKey key l).Perm l := by
  induction l with
  | nil => simp [sortByKey]
  | cons x xs ih =>
      unfold sortByKey
      exact (insertByKey_perm key x (sortByKey key xs)).trans (ih.cons x)

theorem insertByKey_sorted {α : Type} (key : α → Int) (r : α) (l : List α)
    (h : List.Sorted (fun a b => key a ≤ key b) l) :
    List.Sorted (fun a b => key a ≤ key b) (insertByKey key r l) := by
  induction l with
  | nil => simp [insertByKey]
  | cons x xs ih =>
      rw [List.sorted_cons] at h
      unfold insertByKey
      split_ifs with hxr
      · rw [List.sorted_cons]
        refine ⟨?_, ih h.2⟩
        intro b hb
        rcases List.mem_cons.mp ((insertByKey_perm key r xs).mem_iff.mp hb) with hb | hb
        · exact hb ▸ hxr
        · exact h.1 b hb
      · rw [List.sorted_cons]
        refine ⟨?_, by rw [List.sorted_cons]; exact h⟩
        intro b hb
        rcases List.mem_cons.mp hb with hb | hb
        · exact hb ▸ le_of_not_le hxr
        · exact le_trans (le_of_not_le hxr) (h.1 b hb)

theorem sortByKey_sorted {α : Type} (key : α → Int) (l : List α) :
    List.Sorted (fun a b => key a ≤ key b) (sortByKey key l) := by
  induction l with
  | nil => simp [sortByKey]
  | cons x xs ih => exact insertByKey_sorted key x (sortByKey key xs) ih

theorem flatQA_append {α : Type} (f : α → List String) (l1 l2 : List α) :
    flatQA f (l1 ++ l2) = flatQA f l1 ++ flatQA f l2 := by
  induction l1 with
  | nil => rfl
  | cons x xs ih => simp [flatQA, ih]

namespace Part000

theorem p0_foldl_blocks : ∀ (l : List ResponseRow) (init : List String),
    (l.foldl (fun acc r =>
      acc ++ (if r.question == "" then [] else ["Q: " ++ r.question])
          ++ (if r.answer_text == "" then [] else ["A: " ++ r.answer_text])) init)
    = init ++ flatQA (fun r =>
        (if r.question == "" then [] else ["Q: " ++ r.question])
        ++ (if r.answer_text == "" then [] else ["A: " ++ r.answer_text])) l := by
  intro l
  induction l with
  | nil => intro init; simp [flatQA]
  | cons x xs ih =>
      intro init
      simp only [List.foldl_cons, flatQA]
      rw [ih]
      simp [List.append_assoc]

theorem flatQA_blocks_eq_filter (l : List ResponseRow)
    (h : ∀ r ∈ l, (r.question = "" ↔ r.answer_text = "")) :
    flatQA (fun r =>
        (if r.question == "" then [] else ["Q: " ++ r.question])
        ++ (if r.answer_text == "" then [] else ["A: " ++ r.answer_text])) l
    = flatQA (fun r => ["Q: " ++ r.question, "A: " ++ r.answer_text])
        (l.filter fullRow) := by
  induction l with
  | nil => rfl
  | cons x xs ih =>
      have hx := h x (List.mem_cons_self x xs)
      have hxs := fun r hr => h r (List.mem_cons_of_mem x hr)
      by_cases hq : x.question = ""
      · have ha : x.answer_text = "" := hx.mp hq
        have hfull : fullRow x = false := by simp [fullRow, hq, ha]
        have ih2 := ih hxs
        simp only [beq_iff_eq] at ih2
        simp [flatQA, List.filter_cons, hq, ha, hfull, ih2]
      · have ha : ¬ x.answer_text = "" := fun hh => hq (hx.mpr hh)
        have hfull : fullRow x = true := by simp [fullRow, hq, ha]
        have ih2 := ih hxs
        simp only [beq_iff_eq] at ih2
        simp [flatQA, List.filter_cons, hq, ha, hfull, ih2]

end Part000

theorem findSession_mem {σ : AppState} {cid : String} {s : Session}
    (h : findSession σ cid = some s) :
    s ∈ σ.sessions ∧ s.candidate_id = cid := by
  unfold findSession at h
  refine ⟨List.mem_of_find?_eq_some h, ?_⟩
  have := List.find?_some h
  simpa using this

theorem submitAnswer_notFound (a : SubmitArgs) (σ : AppState)
    (hf : findSession σ a.candidate_id = none) :
    submitAnswer a σ = (σ, .error (.notFound "Session not found")) := by
  simp only [submitAnswer, hf]

theorem submitAnswer_transcodeFail (a : SubmitArgs) (σ : AppState) (s : Session)
    (hf : findSession σ a.candidate_id = some s)
    (ht : a.transcodeOk = false) :
    submitAnswer a σ =
      ({ σ with tempFiles := σ.tempFiles ++ [a.tmpIn] },
       .error .transcodeFailed) := by
  simp [submitAnswer, hf, ht]

theorem submitAnswer_indexError (a : SubmitArgs) (σ : AppState) (s : Session)
    (hf : findSession σ a.candidate_id = some s)
    (ht : a.transcodeOk = true)
    (hq : pyGet QUESTIONS a.question_index = none) :
    submitAnswer a σ =
      ({ σ with
          tempFiles := ((σ.tempFiles ++ [a.tmpIn]) ++ [a.tmpWav]).filter
            (fun f => !(f == a.tmpIn) && !(f == a.tmpWav)),
          blobKeys := σ.blobKeys ++ [a.candidate_id ++ "/" ++ a.uuidHex ++ a.ext] },
       .error .indexError) := by
  simp only [submitAnswer, hf, ht, hq, if_true]

theorem submitAnswer_run_eq (a : SubmitArgs) (σ : AppState) (s : Session) (q : String)
    (hf : findSession σ a.candidate_id = some s)
    (ht : a.transcodeOk = true)
    (hq : pyGet QUESTIONS a.question_index = some q)
    (hobj : isObjectId a.candidate_id = true) :
    submitAnswer a σ =
      (if (transcribeStep a.r1 a.r2).2.1 = "ok" then
         { submitMidState a q σ with
             sessions := bumpSessions a.candidate_id (s.q_index + 1) σ.sessions }
       else submitMidState a q σ,
       Except.ok ⟨(transcribeStep a.r1 a.r2).1, (transcribeStep a.r1 a.r2).2.1,
         "/question/" ++ a.candidate_id⟩) := by
  simp only [submitAnswer, submitMidState, hf, ht, hq, hobj, if_true]

theorem countOk_append (l : List AnswerRecord) (r : AnswerRecord) (cid : String) :
    countOk (l ++ [r]) cid =
      countOk l cid +
        (if r.candidate_id = cid ∧ r.status = "ok" then 1 else 0) := by
  unfold countOk
  rw [List.filter_append, List.length_append]
  congr 1
  by_cases h1 : r.candidate_id = cid <;> by_cases h2 : r.status = "ok" <;>
    simp [List.filter_cons, h1, h2]

theorem countOk_append_ok {r : AnswerRecord} {cid : String}
    (h1 : r.candidate_id = cid) (h2 : r.status = "ok") (l : List AnswerRecord) :
    countOk (l ++ [r]) cid = countOk l cid + 1 := by
  rw [countOk_append, if_pos ⟨h1, h2⟩]

theorem countOk_append_other {r : AnswerRecord} {cid : String}
    (h : ¬(r.candidate_id = cid ∧ r.status = "ok")) (l : List AnswerRecord) :
    countOk (l ++ [r]) cid = countOk l cid := by
  rw [countOk_append, if_neg h]
  omega

theorem find?_bumpSessions (cid : String) (v : Nat) (l : List Session) :
    (bumpSessions cid v l).find? (fun s => s.candidate_id == cid) =
      (l.find? (fun s => s.candidate_id == cid)).map
        (fun _ => (⟨cid, v⟩ : Session)) := by
  induction l with
  | nil => rfl
  | cons t ts ih =>
      unfold bumpSessions at ih ⊢
      by_cases h : t.candidate_id = cid
      · simp only [List.map_cons]
        rw [if_pos (by simpa using h)]
        rw [List.find?_cons_of_pos _ (by simpa using h),
            List.find?_cons_of_pos _ (by simpa using h)]
        simp [h]
      · simp only [List.map_cons]
        rw [if_neg (by simpa using h)]
        rw [List.find?_cons_of_neg _ (by simpa using h),
            List.find?_cons_of_neg _ (by simpa using h)]
        exact ih

theorem mem_bumpSessions {t' : Session} {cid : String} {v : Nat} {l : List Session}
    (h : t' ∈ bumpSessions cid v l) :
    ∃ t ∈ l, t' = if t.candidate_id = cid then (⟨t.candidate_id, v⟩ : Session) else t := by
  unfold bumpSessions at h
  rcases List.mem_map.mp h with ⟨t, ht, hEq⟩
  refine ⟨t, ht, ?_⟩
  by_cases hc : t.candidate_id = cid
  · rw [if_pos hc]
    rw [← hEq, if_pos (by simpa using hc)]
  · rw [if_neg hc]
    rw [← hEq, if_neg (by simpa using hc)]

theorem getQuestion_fst_fields (cid : String) (σ : AppState) :
    ((getQuestion cid σ).1).sessions = σ.sessions ∧
    ((getQuestion cid σ).1).interviews = σ.interviews := by
  unfold getQuestion
  cases findSession σ cid with
  | none => exact ⟨rfl, rfl⟩
  | some s =>
      by_cases h : s.q_index < QUESTIONS.length
      · simp only [dif_pos h]
        split_ifs with hc <;> exact ⟨rfl, rfl⟩
      · simp only [dif_neg h]
        exact ⟨trivial, trivial⟩

theorem inv_submit (a : SubmitArgs) (σ : AppState) (h : Inv σ) :
    Inv (submitAnswer a σ).1 := by
  cases hf : findSession σ a.candidate_id with
  | none => rw [submitAnswer_notFound a σ hf]; exact h
  | some s =>
      cases ht : a.transcodeOk with
      | false => rw [submitAnswer_transcodeFail a σ s hf ht]; exact h
      | true =>
          cases hq : pyGet QUESTIONS a.question_index with
          | none => rw [submitAnswer_indexError a σ s hf ht hq]; exact h
          | some q =>
              cases hobj : isObjectId a.candidate_id with
              | false =>
                  exfalso
                  have hm := findSession_mem hf
                  have hv := h.1 s hm.1
                  rw [hm.2, hobj] at hv
                  exact Bool.false_ne_true hv
              | true =>
                  rw [submitAnswer_run_eq a σ s q hf ht hq hobj]
                  have hm := findSession_mem hf
                  by_cases hok : (transcribeStep a.r1 a.r2).2.1 = "ok"
                  · rw [if_pos hok]
                    constructor
                    · intro t' ht'
                      rcases mem_bumpSessions ht' with ⟨t, htl, hEq⟩
                      by_cases hc : t.candidate_id = a.candidate_id
                      · rw [hEq, if_pos hc]
                        exact h.1 t htl
                      · rw [hEq, if_neg hc]
                        exact h.1 t htl
                    · intro t' ht'
                      rcases mem_bumpSessions ht' with ⟨t, htl, hEq⟩
                      by_cases hc : t.candidate_id = a.candidate_id
                      · rw [hEq, if_pos hc]
                        show s.q_index + 1 = countOk (σ.interviews ++ _) t.candidate_id
                        rw [countOk_append_ok hc.symm hok]
                        have hs := h.2 s hm.1
                        rw [hm.2, ← hc] at hs
                        omega
                      · rw [hEq, if_neg hc]
                        show t.q_index = countOk (σ.interviews ++ _) t.candidate_id
                        rw [countOk_append_other (fun hh => hc hh.1.symm)]
                        exact h.2 t htl
                  · rw [if_neg hok]
                    constructor
                    · intro t' ht'
                      exact h.1 t' ht'
                    · intro t' ht'
                      show t'.q_index = countOk (σ.interviews ++ _) t'.candidate_id
                      rw [countOk_append_other (fun hh => hok hh.2)]
                      exact h.2 t' ht'

theorem inv_step (σ : AppState) (op : Op) (h : Inv σ) : Inv (step σ op) := by
  cases op with
  | submit a => exact inv_submit a σ h
  | question cid =>
      have hfld := getQuestion_fst_fields cid σ
      have hstep : step σ (Op.question cid) = (getQuestion cid σ).1 := rfl
      rw [hstep]
      constructor
      · intro t ht
        rw [hfld.1] at ht
        exact h.1 t ht
      · intro t ht
        rw [hfld.1] at ht
        rw [hfld.2]
        exact h.2 t ht
  | answers cid => exact h
  | finish cid =>
      constructor
      · intro t ht
        exact h.1 t (List.mem_of_mem_filter ht)
      · intro t ht
        exact h.2 t (List.mem_of_mem_filter ht)

theorem inv_run (σ : AppState) (ops : List Op) (h : Inv σ) : Inv (run σ ops) := by
  induction ops generalizing σ with
  | nil => exact h
  | cons op ops ih => exact ih _ (inv_step σ op h)

theorem okSubmit_step (cid : String) (a : SubmitArgs) (σ : AppState) (s : Session)
    (h : Inv σ) (hf : findSession σ cid = some s)
    (hok : isOkSubmit cid (Op.submit a) = true) :
    findSession (step σ (Op.submit a)) cid = some ⟨cid, s.q_index + 1⟩ ∧
    countOk (step σ (Op.submit a)).interviews cid = countOk σ.interviews cid + 1 := by
  unfold isOkSubmit at hok
  simp only [Bool.and_eq_true, beq_iff_eq, Option.isSome_iff_exists] at hok
  obtain ⟨⟨⟨hcid, ht⟩, q, hq⟩, hst⟩ := hok
  subst hcid
  have hm := findSession_mem hf
  have hobj : isObjectId a.candidate_id = true := by
    rw [← hm.2]
    exact h.1 s hm.1
  show findSession (submitAnswer a σ).1 a.candidate_id = _ ∧
    countOk (submitAnswer a σ).1.interviews a.candidate_id = _
  rw [submitAnswer_run_eq a σ s q hf ht hq hobj, if_pos hst]
  constructor
  · show (bumpSessions a.candidate_id (s.q_index + 1) σ.sessions).find?
      (fun t => t.candidate_id == a.candidate_id) = _
    rw [find?_bumpSessions]
    rw [show σ.sessions.find? (fun t => t.candidate_id == a.candidate_id) = some s from hf]
    rfl
  · show countOk (σ.interviews ++ _) a.candidate_id = _
    rw [countOk_append_ok rfl hst]

theorem okSubmit_run (cid : String) (ops : List Op) (σ : AppState) (s : Session)
    (h : Inv σ) (hf : findSession σ cid = some s)
    (hops : ∀ op ∈ ops, isOkSubmit cid op = true) :
    findSession (run σ ops) cid = some ⟨cid, s.q_index + ops.length⟩ ∧
    countOk (run σ ops).interviews cid = countOk σ.interviews cid + ops.length := by
  induction ops generalizing σ s with
  | nil =>
      obtain ⟨scid, sq⟩ := s
      have hm := findSession_mem hf
      simp only at hm
      constructor
      · show findSession σ cid = _
        rw [hf, hm.2]
        simp
      · show countOk σ.interviews cid = _
        simp
  | cons op2 ops ih =>
      have hop := hops op2 (List.mem_cons_self op2 ops)
      cases op2 with
      | question c => simp [isOkSubmit] at hop
      | answers c => simp [isOkSubmit] at hop
      | finish c => simp [isOkSubmit] at hop
      | submit a =>
          have hstep := okSubmit_step cid a σ s h hf hop
          have hinv := inv_step σ (Op.submit a) h
          have htail := ih (step σ (Op.submit a)) ⟨cid, s.q_index + 1⟩ hinv hstep.1
            (fun o ho => hops o (List.mem_cons_of_mem _ ho))
          have hproj : (⟨cid, s.q_index + 1⟩ : Session).q_index = s.q_index + 1 := rfl
          rw [hproj] at htail
          have hrw : run σ (Op.submit a :: ops) = run (step σ (Op.submit a)) ops := rfl
          rw [hrw]
          constructor
          · rw [htail.1]
            simp only [List.length_cons]
            have harith : s.q_index + 1 + ops.length = s.q_index + (ops.length + 1) := by
              omega
            rw [harith]
          · rw [htail.2, hstep.2]
            simp only [List.length_cons]
            omega

theorem submitAnswer_invalidObjectId (a : SubmitArgs) (σ : AppState) (s : Session)
    (q : String)
    (hf : findSession σ a.candidate_id = some s)
    (ht : a.transcodeOk = true)
    (hq : pyGet QUESTIONS a.question_index = some q)
    (hobj : isObjectId a.candidate_id = false) :
    (submitAnswer a σ).2 = Except.error Err.invalidObjectId := by
  simp [submitAnswer, hf, ht, hq, hobj]

/-- C1: for every completed `submit_answer` call the recorded status is `ok`
or `error`, the appended answer record carries exactly the returned status
and transcript, and the session's `q_index` is advanced by exactly one when
the status is `ok` and left unchanged when it is `error`. -/
theorem C1_qindex_advances_iff_status_ok (a : SubmitArgs) (σ : AppState)
    (resp : SubmitResp) (h : (submitAnswer a σ).2 = Except.ok resp) :
    ∃ s, findSession σ a.candidate_id = some s ∧
      (resp.status = "ok" ∨ resp.status = "error") ∧
      (∃ q url, (submitAnswer a σ).1.interviews =
        σ.interviews ++ [⟨a.candidate_id, q, resp.answer_text, resp.status, url⟩]) ∧
      ((resp.status = "ok" ∧
          findSession (submitAnswer a σ).1 a.candidate_id =
            some ⟨a.candidate_id, s.q_index + 1⟩) ∨
       (resp.status = "error" ∧
          findSession (submitAnswer a σ).1 a.candidate_id = some s)) := by
  cases hf : findSession σ a.candidate_id with
  | none => rw [submitAnswer_notFound a σ hf] at h; simp at h
  | some s =>
      cases ht : a.transcodeOk with
      | false => rw [submitAnswer_transcodeFail a σ s hf ht] at h; simp at h
      | true =>
          cases hq : pyGet QUESTIONS a.question_index with
          | none => rw [submitAnswer_indexError a σ s hf ht hq] at h; simp at h
          | some q =>
              cases hobj : isObjectId a.candidate_id with
              | false =>
                  rw [submitAnswer_invalidObjectId a σ s q hf ht hq hobj] at h
                  simp at h
              | true =>
                  rw [submitAnswer_run_eq a σ s q hf ht hq hobj] at h
                  have hresp : resp =
                      ⟨(transcribeStep a.r1 a.r2).1, (transcribeStep a.r1 a.r2).2.1,
                       "/question/" ++ a.candidate_id⟩ := by
                    symm
                    simpa using h
                  subst hresp
                  refine ⟨s, rfl, ?_, ?_, ?_⟩
                  · exact transcribeStep_status a.r1 a.r2
                  · rw [submitAnswer_run_eq a σ s q hf ht hq hobj]
                    by_cases hok : (transcribeStep a.r1 a.r2).2.1 = "ok"
                    · rw [if_pos hok]
                      exact ⟨q, publicUrl (a.candidate_id ++ "/" ++ a.uuidHex ++ a.ext),
                        rfl⟩
                    · rw [if_neg hok]
                      exact ⟨q, publicUrl (a.candidate_id ++ "/" ++ a.uuidHex ++ a.ext),
                        rfl⟩
                  · rw [submitAnswer_run_eq a σ s q hf ht hq hobj]
                    by_cases hok : (transcribeStep a.r1 a.r2).2.1 = "ok"
                    · left
                      refine ⟨hok, ?_⟩
                      rw [if_pos hok]
                      show (bumpSessions a.candidate_id (s.q_index + 1) σ.sessions).find?
                        (fun t => t.candidate_id == a.candidate_id) = _
                      rw [find?_bumpSessions]
                      rw [show σ.sessions.find?
                        (fun t => t.candidate_id == a.candidate_id) = some s from hf]
                      rfl
                    · right
                      have herr : (transcribeStep a.r1 a.r2).2.1 = "error" := by
                        rcases transcribeStep_status a.r1 a.r2 with hh | hh
                        · exact absurd hh hok
                        · exact hh
                      refine ⟨herr, ?_⟩
                      rw [if_neg hok]
                      exact hf

/-- C1 witness: a concrete successful submission for question 0 in the
freshly started session advances `q_index` from 0 to 1 and appends an
`ok` record. -/
theorem C1_witness :
    ∃ s, findSession startedState cidH = some s ∧
      (("ok" : String) = "ok" ∨ ("ok" : String) = "error") ∧
      (∃ q url, (submitAnswer (okArgs 0) startedState).1.interviews =
        startedState.interviews ++ [⟨cidH, q, "about five years", "ok", url⟩]) ∧
      ((("ok" : String) = "ok" ∧
          findSession (submitAnswer (okArgs 0) startedState).1 cidH =
            some ⟨cidH, s.q_index + 1⟩) ∨
       (("ok" : String) = "error" ∧
          findSession (submitAnswer (okArgs 0) startedState).1 cidH = some s)) :=
  C1_qindex_advances_iff_status_ok (okArgs 0) startedState
    ⟨"about five years", "ok", "/question/0123456789abcdef01234567"⟩ (by decide)

/-- C2: the session invariant — every session row's `q_index` equals the
count of `ok` answer records for its candidate — is preserved by every
request sequence, and from any session it holds for, N consecutive
`ok`-status submissions leave `q_index` at its old value plus N, which
equals exactly the count of `ok` answer records. -/
theorem C2_qindex_equals_ok_count :
    (∀ (σ : AppState) (ops : List Op), Inv σ → Inv (run σ ops)) ∧
    (∀ (σ : AppState) (cid : String) (s : Session) (ops : List Op),
      Inv σ → findSession σ cid = some s →
      (∀ op ∈ ops, isOkSubmit cid op = true) →
      findSession (run σ ops) cid = some ⟨cid, s.q_index + ops.length⟩ ∧
      countOk (run σ ops).interviews cid = s.q_index + ops.length) := by
  constructor
  · exact fun σ ops h => inv_run σ ops h
  · intro σ cid s ops h hf hops
    have hr := okSubmit_run cid ops σ s h hf hops
    refine ⟨hr.1, ?_⟩
    rw [hr.2]
    have hm := findSession_mem hf
    have hs := h.2 s hm.1
    rw [hm.2] at hs
    omega

/-- C2 witness: starting from the fresh session (`q_index = 0`), the six
consecutive `ok` submissions leave `q_index = 6`, which equals the count of
`ok` answer records. -/
theorem C2_witness :
    findSession (run startedState sixOkOps) cidH = some ⟨cidH, 6⟩ ∧
    countOk (run startedState sixOkOps).interviews cidH = 6 :=
  C2_qindex_equals_ok_count.2 startedState cidH ⟨cidH, 0⟩ sixOkOps
    (by decide) (by decide) (by decide)

/-- C3: whenever a session's `q_index` is at or past the end of the fixed
six-question list, `next_question` reports completion without error and
leaves the state unchanged, so the outcome is terminal and idempotent. -/
theorem C3_done_terminal_idempotent (σ : AppState) (cid : String) (s : Session)
    (hf : findSession σ cid = some s)
    (hge : QUESTIONS.length ≤ s.q_index) :
    getQuestion cid σ = (σ, Except.ok QuestionResp.done) := by
  simp only [getQuestion, hf]
  rw [dif_neg (Nat.not_lt.mpr hge)]

/-- C3 witness: after the start and six successive `ok` submissions the
session sits at `q_index = 6` and the next `next_question` call reports
completion with the state unchanged (so a repeat returns the same). -/
theorem C3_witness :
    findSession finishedState cidH = some ⟨cidH, 6⟩ ∧
    getQuestion cidH finishedState = (finishedState, Except.ok QuestionResp.done) :=
  ⟨by decide,
   C3_done_terminal_idempotent finishedState cidH ⟨cidH, 6⟩ (by decide) (by decide)⟩

/-- C4 counterexample: in the single-store variant's `submit_answer` an empty
transcript triggers no retry at all — the pipeline performs exactly one
decode attempt — and the request is answered with status `ok`, not with a
recorded `error` status. -/
theorem C4_counterexample :
    (Part000.p0Transcribe (some "")).2.length = 1 ∧
    ¬ (Part000.p0Transcribe (some "")).2 = [Pad.firstTry, Pad.retryLonger] ∧
    (Part000.p0SubmitAnswer ⟨1, 0, true, some "", "in0", "wav0", ".webm"⟩
        ⟨[], [], []⟩).2 =
      Except.ok ⟨"(Could not detect speech)", "ok",
        publicUrl "1/answer_q0.webm", "/question/1"⟩ := by
  refine ⟨rfl, by decide, by decide⟩

/-- C4 (amended): in the dual-store `submit_answer` pipeline an empty first
transcript triggers exactly one retry with the longer padding window (at
most two decode attempts ever happen, and the second exactly when the first
succeeded with an empty stripped text), the outcome is classified `error`
exactly on engine failure or a still-empty transcript, and such a failure is
recovered locally — the request still completes, returning and recording
the computed status.  The single-store variant, by contrast, never retries
and always reports status `ok`. -/
theorem C4_amended_retry_policy :
    (∀ r1 r2 : Option String,
      (transcribeStep r1 r2).2.2.length ≤ 2 ∧
      ((transcribeStep r1 r2).2.2 = [Pad.firstTry, Pad.retryLonger] ↔
        ∃ t, r1 = some t ∧ pyStrip t = "") ∧
      ((transcribeStep r1 r2).2.1 = "error" ↔
        (r1 = none ∨ ∃ t, r1 = some t ∧ pyStrip t = "" ∧
          (r2 = none ∨ ∃ u, r2 = some u ∧ pyStrip u = "")))) ∧
    (∀ (a : SubmitArgs) (σ : AppState) (s : Session) (q : String),
      findSession σ a.candidate_id = some s → a.transcodeOk = true →
      pyGet QUESTIONS a.question_index = some q →
      isObjectId a.candidate_id = true →
      (submitAnswer a σ).2 = Except.ok
        ⟨(transcribeStep a.r1 a.r2).1, (transcribeStep a.r1 a.r2).2.1,
         "/question/" ++ a.candidate_id⟩) ∧
    (∀ r1 : Option String, (Part000.p0Transcribe r1).2 = [Pad.firstTry]) ∧
    (∀ (a : Part000.P0SubmitArgs) (σ : Part000.P0State) (q : String),
      a.transcodeOk = true → pyGet QUESTIONS a.question_index = some q →
      ∃ resp, (Part000.p0SubmitAnswer a σ).2 = Except.ok resp ∧
        resp.status = "ok" ∧ resp.answer_text = (Part000.p0Transcribe a.r1).1) := by
  refine ⟨?_, ?_, ?_, ?_⟩
  · intro r1 r2
    exact ⟨transcribeStep_attempts_le r1 r2, transcribeStep_retry_iff r1 r2,
      transcribeStep_error_iff r1 r2⟩
  · intro a σ s q hf ht hq hobj
    rw [submitAnswer_run_eq a σ s q hf ht hq hobj]
  · intro r1
    cases r1 <;> rfl
  · intro a σ q ht hq
    refine ⟨⟨(Part000.p0Transcribe a.r1).1, "ok",
      publicUrl (toString a.candidate_id ++ "/answer_q" ++
        toString a.question_index ++ a.ext),
      "/question/" ++ toString a.candidate_id⟩, ?_, rfl, rfl⟩
    simp only [Part000.p0SubmitAnswer, ht, hq, if_true]

/-- C4 witness: the empty-then-nonempty oracle pair retries exactly once and
ends `ok`; a concrete completed dual-store submission returns the computed
transcript and status. -/
theorem C4_witness :
    ((transcribeStep (some "") (some "two years")).2.2 =
      [Pad.firstTry, Pad.retryLonger] ↔
        ∃ t, (some "" : Option String) = some t ∧ pyStrip t = "") ∧
    (submitAnswer (okArgs 0) startedState).2 = Except.ok
      ⟨"about five years", "ok", "/question/0123456789abcdef01234567"⟩ :=
  ⟨(C4_amended_retry_policy.1 (some "") (some "two years")).2.1,
   C4_amended_retry_policy.2.1 (okArgs 0) startedState ⟨cidH, 0⟩
     "How many years of experience do you have?"
     (by decide) (by decide) (by decide) (by decide)⟩

theorem getQuestion_cached (σ : AppState) (cid : String) (s : Session)
    (hf : findSession σ cid = some s)
    (hlt : s.q_index < QUESTIONS.length)
    (hfile : ttsName cid s.q_index ∈ σ.ttsCache)
    (hkey : botKey cid s.q_index ∈ σ.blobKeys) :
    getQuestion cid σ =
      (σ, Except.ok (QuestionResp.ask s.q_index (QUESTIONS.get ⟨s.q_index, hlt⟩)
        (publicUrl (botKey cid s.q_index)))) := by
  simp only [getQuestion, hf, dif_pos hlt, if_pos hfile]
  rw [insertKey_of_mem hkey]

/-- C5: a `next_question` call that returns a question leaves the TTS cache
with at most one new synthesis, and an immediately repeated call with no
intervening submission returns exactly the same question index, question and
audio URL, changing nothing (the cached synthesis keyed on candidate and
index is reused). -/
theorem C5_question_idempotent_cached (σ : AppState) (cid : String) (idx : Nat)
    (q url : String)
    (h : (getQuestion cid σ).2 = Except.ok (QuestionResp.ask idx q url)) :
    (getQuestion cid σ).1.synthCount ≤ σ.synthCount + 1 ∧
    getQuestion cid ((getQuestion cid σ).1) =
      ((getQuestion cid σ).1, Except.ok (QuestionResp.ask idx q url)) := by
  cases hf : findSession σ cid with
  | none =>
      rw [show getQuestion cid σ = (σ, Except.error (Err.notFound "Session not found"))
        from by simp only [getQuestion, hf]] at h
      simp at h
  | some s =>
      by_cases hlt : s.q_index < QUESTIONS.length
      · by_cases hc : ttsName cid s.q_index ∈ σ.ttsCache
        · have hfirst : getQuestion cid σ =
              ({ σ with blobKeys := insertKey (botKey cid s.q_index) σ.blobKeys },
               Except.ok (QuestionResp.ask s.q_index (QUESTIONS.get ⟨s.q_index, hlt⟩)
                 (publicUrl (botKey cid s.q_index)))) := by
            simp only [getQuestion, hf, dif_pos hlt, if_pos hc]
          rw [hfirst] at h
          obtain ⟨hidx, hq, hurl⟩ :
              s.q_index = idx ∧ QUESTIONS.get ⟨s.q_index, hlt⟩ = q ∧
              publicUrl (botKey cid s.q_index) = url := by
            simpa using h
          subst hidx; subst hq; subst hurl
          rw [hfirst]
          refine ⟨by simp, ?_⟩
          refine getQuestion_cached _ cid s ?_ hlt ?_ ?_
          · exact hf
          · exact hc
          · exact mem_insertKey_self _ _
        · have hfirst : getQuestion cid σ =
              ({ σ with
                  ttsCache := σ.ttsCache ++ [ttsName cid s.q_index],
                  synthCount := σ.synthCount + 1,
                  blobKeys := insertKey (botKey cid s.q_index) σ.blobKeys },
               Except.ok (QuestionResp.ask s.q_index (QUESTIONS.get ⟨s.q_index, hlt⟩)
                 (publicUrl (botKey cid s.q_index)))) := by
            simp only [getQuestion, hf, dif_pos hlt, if_neg hc]
          rw [hfirst] at h
          obtain ⟨hidx, hq, hurl⟩ :
              s.q_index = idx ∧ QUESTIONS.get ⟨s.q_index, hlt⟩ = q ∧
              publicUrl (botKey cid s.q_index) = url := by
            simpa using h
          subst hidx; subst hq; subst hurl
          rw [hfirst]
          refine ⟨by simp, ?_⟩
          refine getQuestion_cached _ cid s ?_ hlt ?_ ?_
          · exact hf
          · exact List.mem_append.mpr (Or.inr (List.mem_singleton.mpr rfl))
          · exact mem_insertKey_self _ _
      · rw [show getQuestion cid σ = (σ, Except.ok QuestionResp.done)
          from by simp only [getQuestion, hf]; rw [dif_neg hlt]] at h
        simp at h

/-- C5 witness: in the freshly started session, the first `next_question`
call returns question 0 and the repeated call returns the same index,
question and audio URL with no further synthesis. -/
theorem C5_witness :
    (getQuestion cidH startedState).1.synthCount ≤ startedState.synthCount + 1 ∧
    getQuestion cidH ((getQuestion cidH startedState).1) =
      ((getQuestion cidH startedState).1,
       Except.ok (QuestionResp.ask 0 "How many years of experience do you have?"
         (publicUrl "0123456789abcdef01234567/bot_q_0.mp3"))) :=
  C5_question_idempotent_cached startedState cidH 0
    "How many years of experience do you have?"
    (publicUrl "0123456789abcdef01234567/bot_q_0.mp3") (by decide)

/-- C6 counterexample: with two answer records stored out of question order
(as the unchecked caller-supplied index permits), the dual-store
`get_answers` returns the Q/A pairs in stored order — question 1 before
question 0 — not in the question-index order and flat alternating form the
claim prescribes. -/
theorem C6_counterexample :
    (appGetAnswers "c" outOfOrderState).2.qa =
      [["Q: What is your current CTC?", "A: five lakh"],
       ["Q: How many years of experience do you have?", "A: three years"]] ∧
    specOrderedFlatTranscript
        (outOfOrderState.interviews.filter (fun r => r.candidate_id == "c")) =
      ["Q: How many years of experience do you have?", "A: three years",
       "Q: What is your current CTC?", "A: five lakh"] ∧
    flatQA id (appGetAnswers "c" outOfOrderState).2.qa ≠
      specOrderedFlatTranscript
        (outOfOrderState.interviews.filter (fun r => r.candidate_id == "c")) := by
  refine ⟨by decide, by decide, by decide⟩

/-- C6 (amended): both `get_answers` projections are read-only; the
single-store variant returns the candidate's rows ordered by question index
and, whenever every row is either a full answer (both texts non-null) or the
null placeholder, its transcript is exactly the flat alternating Q/A
interleaving of the full rows in that order.  The dual-store variant returns
the stored Q/A pairs without sorting by question index. -/
theorem C6_amended_projection :
    (∀ (σp : Part000.P0State) (cidp : Int),
      (Part000.p0GetAnswers cidp σp).1 = σp ∧
      ((∀ r ∈ σp.responses, r.candidate_id = cidp →
          (r.question = "" ↔ r.answer_text = "")) →
        ((Part000.p0GetAnswers cidp σp).2.answers.Perm
            (σp.responses.filter (fun r => r.candidate_id == cidp)) ∧
         List.Sorted (fun a b : Part000.ResponseRow => a.q_index ≤ b.q_index)
            ((Part000.p0GetAnswers cidp σp).2.answers) ∧
         (Part000.p0GetAnswers cidp σp).2.transcript =
           flatQA (fun r => ["Q: " ++ r.question, "A: " ++ r.answer_text])
             (((Part000.p0GetAnswers cidp σp).2.answers).filter Part000.fullRow)))) ∧
    (∀ (σ : AppState) (cid : String), (appGetAnswers cid σ).1 = σ) := by
  constructor
  · intro σp cidp
    refine ⟨rfl, ?_⟩
    intro hiff
    by_cases he : (sortByKey (fun r => r.q_index)
        (σp.responses.filter (fun r => r.candidate_id == cidp))).isEmpty
    · have hresp : (Part000.p0GetAnswers cidp σp).2 = ⟨cidp, [], []⟩ := by
        simp only [Part000.p0GetAnswers, if_pos he]
      have hnil : sortByKey (fun r => r.q_index)
          (σp.responses.filter (fun r => r.candidate_id == cidp)) = [] :=
        List.isEmpty_iff.mp he
      have hfilnil : σp.responses.filter (fun r => r.candidate_id == cidp) = [] := by
        have hp := sortByKey_perm (fun r : Part000.ResponseRow => r.q_index)
          (σp.responses.filter (fun r => r.candidate_id == cidp))
        rw [hnil] at hp
        exact (List.perm_nil.mp hp.symm)
      rw [hresp, hfilnil]
      exact ⟨List.Perm.refl _, List.sorted_nil, rfl⟩
    · have hresp : (Part000.p0GetAnswers cidp σp).2 =
          ⟨cidp,
           sortByKey (fun r => r.q_index)
             (σp.responses.filter (fun r => r.candidate_id == cidp)),
           (sortByKey (fun r => r.q_index)
             (σp.responses.filter (fun r => r.candidate_id == cidp))).foldl
             (fun acc r =>
               acc ++ (if r.question == "" then [] else ["Q: " ++ r.question])
                   ++ (if r.answer_text == "" then [] else ["A: " ++ r.answer_text]))
             []⟩ := by
        simp only [Part000.p0GetAnswers, if_neg he]
      rw [hresp]
      refine ⟨sortByKey_perm _ _, sortByKey_sorted _ _, ?_⟩
      rw [Part000.p0_foldl_blocks, List.nil_append]
      apply Part000.flatQA_blocks_eq_filter
      intro r hr
      have hrf : r ∈ σp.responses.filter (fun r => r.candidate_id == cidp) :=
        (sortByKey_perm (fun r : Part000.ResponseRow => r.q_index) _).mem_iff.mp hr
      have hmem := List.mem_filter.mp hrf
      exact hiff r hmem.1 (by simpa using hmem.2)
  · intro σ cid
    rfl

/-- C6 witness: for the single-store state with the null placeholder row and
two answers submitted out of order, the projection is read-only and returns
the rows sorted by `q_index` with the flat alternating transcript of the two
full rows. -/
theorem C6_witness :
    (Part000.p0GetAnswers 7 p0State).1 = p0State ∧
    ((Part000.p0GetAnswers 7 p0State).2.answers.Perm
        (p0State.responses.filter (fun r => r.candidate_id == 7)) ∧
     List.Sorted (fun a b : Part000.ResponseRow => a.q_index ≤ b.q_index)
        ((Part000.p0GetAnswers 7 p0State).2.answers) ∧
     (Part000.p0GetAnswers 7 p0State).2.transcript =
       flatQA (fun r => ["Q: " ++ r.question, "A: " ++ r.answer_text])
         (((Part000.p0GetAnswers 7 p0State).2.answers).filter Part000.fullRow)) :=
  ⟨(C6_amended_projection.1 p0State 7).1,
   (C6_amended_projection.1 p0State 7).2 (by decide)⟩

/-- C7: `finish_interview` deletes exactly the candidate's session rows —
every other component of the state, including all answer records in both
stores, is unchanged — returns the candidate's full answer-record list, and
a subsequent `get_answers` for the same candidate returns the same result
as before the deletion. -/
theorem C7_finish_deletes_only_session (σ : AppState) (cid : String) :
    (finishInterview cid σ).1.mongoCandidates = σ.mongoCandidates ∧
    (finishInterview cid σ).1.supaCandidates = σ.supaCandidates ∧
    (finishInterview cid σ).1.interviews = σ.interviews ∧
    (finishInterview cid σ).1.mongoInterviews = σ.mongoInterviews ∧
    (finishInterview cid σ).1.blobKeys = σ.blobKeys ∧
    (finishInterview cid σ).1.ttsCache = σ.ttsCache ∧
    (finishInterview cid σ).1.synthCount = σ.synthCount ∧
    (finishInterview cid σ).1.tempFiles = σ.tempFiles ∧
    (finishInterview cid σ).1.sessions =
      σ.sessions.filter (fun s => !(s.candidate_id == pyStrip cid)) ∧
    (finishInterview cid σ).2.answers =
      σ.interviews.filter (fun r => r.candidate_id == pyStrip cid) ∧
    (appGetAnswers cid (finishInterview cid σ).1).2 = (appGetAnswers cid σ).2 :=
  ⟨rfl, rfl, rfl, rfl, rfl, rfl, rfl, rfl, rfl, rfl, rfl⟩

/-- C8: in the strict (dual-store) variant, `start_interview` for an email
with no matching candidate record in the Mongo registry fails with a
404 `NotFound` error and leaves the whole state — sessions and all other
records — unchanged. -/
theorem C8_strict_start_404 (req : StartReq) (σ : AppState)
    (h : σ.mongoCandidates.find? (fun c => some c.email == req.email) = none) :
    startInterview req σ =
      (σ, Except.error (Err.notFound ("Candidate with email " ++ optStr req.email ++
        " not found in MongoDB register database"))) ∧
    Err.code (Err.notFound ("Candidate with email " ++ optStr req.email ++
      " not found in MongoDB register database")) = 404 := by
  constructor
  · simp only [startInterview, h]
  · rfl

/-- C8 witness: starting an interview for an unregistered email on the empty
state returns the 404 failure and creates nothing. -/
theorem C8_witness :
    startInterview ⟨some "Bob", some "bob@example.com"⟩ emptyState =
      (emptyState, Except.error (Err.notFound
        ("Candidate with email bob@example.com not found in MongoDB register database"))) ∧
    Err.code (Err.notFound
      ("Candidate with email bob@example.com not found in MongoDB register database")) = 404 :=
  C8_strict_start_404 ⟨some "Bob", some "bob@example.com"⟩ emptyState (by decide)

/-- C9 (code bug): when the ffmpeg transcoding step of `submit_answer`
raises, the request aborts with the uploaded temporary file still on disk —
there is no guaranteed cleanup on this exit path, contradicting the
required removal of both temp files on every exit path. -/
theorem C9_transcode_failure_leaks_tempfile (a : SubmitArgs) (σ : AppState)
    (s : Session)
    (hf : findSession σ a.candidate_id = some s)
    (ht : a.transcodeOk = false) :
    submitAnswer a σ =
      ({ σ with tempFiles := σ.tempFiles ++ [a.tmpIn] },
       Except.error Err.transcodeFailed) ∧
    a.tmpIn ∈ (submitAnswer a σ).1.tempFiles := by
  have h1 := submitAnswer_transcodeFail a σ s hf ht
  refine ⟨h1, ?_⟩
  rw [h1]
  exact List.mem_append.mpr (Or.inr (List.mem_singleton.mpr rfl))

/-- C9 witness: a concrete submission whose transcoding fails leaves its
uploaded temp file in the state at exit. -/
theorem C9_witness :
    submitAnswer ⟨cidH, 0, false, none, none, "in0", "wav0", "uid0", ".webm"⟩
        startedState =
      ({ startedState with tempFiles := startedState.tempFiles ++ ["in0"] },
       Except.error Err.transcodeFailed) ∧
    "in0" ∈ (submitAnswer ⟨cidH, 0, false, none, none, "in0", "wav0", "uid0", ".webm"⟩
        startedState).1.tempFiles :=
  C9_transcode_failure_leaks_tempfile _ startedState ⟨cidH, 0⟩ (by decide) rfl

/-- C10: `submit_answer` indexes the question list with the caller-supplied
index without a bounds check; whenever that index is outside the range
Python list indexing accepts (for the six-question list: at least 6, or
below -6), the request fails with an indexing error after the audio has
already been uploaded to blob storage, while no answer record is appended
and the session's `q_index` is not advanced. -/
theorem C10_unchecked_question_index (a : SubmitArgs) (σ : AppState) (s : Session)
    (hf : findSession σ a.candidate_id = some s)
    (ht : a.transcodeOk = true)
    (hq : pyGet QUESTIONS a.question_index = none) :
    (submitAnswer a σ).2 = Except.error Err.indexError ∧
    (submitAnswer a σ).1.blobKeys =
      σ.blobKeys ++ [a.candidate_id ++ "/" ++ a.uuidHex ++ a.ext] ∧
    (submitAnswer a σ).1.interviews = σ.interviews ∧
    (submitAnswer a σ).1.sessions = σ.sessions ∧
    (submitAnswer a σ).1.mongoInterviews = σ.mongoInterviews ∧
    (∀ i : Int, pyGet QUESTIONS i = none ↔ 6 ≤ i ∨ i < -6) := by
  have h1 := submitAnswer_indexError a σ s hf ht hq
  rw [h1]
  exact ⟨rfl, rfl, rfl, rfl, rfl, pyGet_questions_none_iff⟩

/-- C10 witness: submitting with index 6 on the fresh session errors after
the upload, appends nothing, and leaves the session unchanged. -/
theorem C10_witness :
    (submitAnswer ⟨cidH, 6, true, some "hello", none, "in0", "wav0", "uid0", ".webm"⟩
        startedState).2 = Except.error Err.indexError ∧
    (submitAnswer ⟨cidH, 6, true, some "hello", none, "in0", "wav0", "uid0", ".webm"⟩
        startedState).1.blobKeys =
      startedState.blobKeys ++ [cidH ++ "/" ++ "uid0" ++ ".webm"] ∧
    (submitAnswer ⟨cidH, 6, true, some "hello", none, "in0", "wav0", "uid0", ".webm"⟩
        startedState).1.interviews = startedState.interviews ∧
    (submitAnswer ⟨cidH, 6, true, some "hello", none, "in0", "wav0", "uid0", ".webm"⟩
        startedState).1.sessions = startedState.sessions ∧
    (submitAnswer ⟨cidH, 6, true, some "hello", none, "in0", "wav0", "uid0", ".webm"⟩
        startedState).1.mongoInterviews = startedState.mongoInterviews ∧
    (∀ i : Int, pyGet QUESTIONS i = none ↔ 6 ≤ i ∨ i < -6) :=
  C10_unchecked_question_index _ startedState ⟨cidH, 0⟩ (by decide) rfl rfl

end ChatBot


